import Mathlib

/-!
# Verification of the Continental Snooker booking recorder

A shallow embedding of `src/continental_app.py` (a single-file Streamlit
booking app) together with proofs about its booking, persistence, estimate
and statistics logic.

Conventions of the embedding:
* Python strings are Lean `String`s; character-level work uses `List Char`.
* Python numbers are exact rationals `ℚ`; `round(x, 2)` is modelled as
  round-half-to-even over exact rationals (Python's `round` applies the same
  half-to-even rule to the IEEE double).
* The persisted CSV file is an optional character list `Option (List Char)`
  (`none` = the file does not exist).
* The current calendar date (`datetime.today().strftime("%Y-%m-%d")`) is
  passed in as an explicit `today : String` parameter.
-/

namespace Snooker

/-! ## Python string helpers -/

/-- The whitespace characters stripped by Python's `str.strip` and matched by
the regex class `\s` used for whitespace in `datetime.strptime` formats
(ASCII fragment: space, tab, newline, carriage return, vertical tab, form feed). -/
def isPySpace (c : Char) : Bool :=
  c = ' ' || c = '\t' || c = '\n' || c = '\r' || c = '\x0b' || c = '\x0c'

/-- `str.strip()` on a character list: drop whitespace from both ends. -/
def stripList (cs : List Char) : List Char :=
  ((cs.dropWhile isPySpace).reverse.dropWhile isPySpace).reverse

/-- `str.strip()` on a Lean `String`. -/
def pyStrip (s : String) : String := String.mk (stripList s.data)

/-! ## Time parsing: `datetime.strptime(s.strip().upper(), "%I:%M %p")`
(line 144-145 / 196-197 of `continental_app.py`).

CPython's `_strptime` compiles `"%I:%M %p"` to the regular expression
`(1[0-2]|0[1-9]|[1-9]):([0-5]\d|\d)\s+(AM|PM)` (case-insensitive, and the
whole input must be consumed).  The functions below implement exactly that
grammar; the alternations are prefix-disjoint here, so no backtracking is
needed. -/

/-- Numeric value of a digit character. -/
def digitVal (c : Char) : ℕ := c.toNat - 48

/-- Numeric value of a digit string. -/
def digitsVal (ds : List Char) : ℕ := ds.foldl (fun a c => 10 * a + digitVal c) 0

/-- Does `c` match `[0-9]`? -/
def isDigitCh (c : Char) : Bool := 48 ≤ c.toNat && c.toNat ≤ 57

/-- Does `c` match `[1-9]`? -/
def isDigit19 (c : Char) : Bool := 49 ≤ c.toNat && c.toNat ≤ 57

/-- Does `c` match `[0-5]`? -/
def isDigit05 (c : Char) : Bool := 48 ≤ c.toNat && c.toNat ≤ 53

/-- Consume the `%I` hour token: `1[0-2]|0[1-9]|[1-9]`. -/
def takeHour : List Char → Option (ℕ × List Char)
  | c1 :: c2 :: r =>
      if c1 = '1' ∧ (c2 = '0' ∨ c2 = '1' ∨ c2 = '2') then some (10 + digitVal c2, r)
      else if c1 = '0' ∧ isDigit19 c2 then some (digitVal c2, r)
      else if isDigit19 c1 then some (digitVal c1, c2 :: r)
      else none
  | [c1] => if isDigit19 c1 then some (digitVal c1, []) else none
  | [] => none

/-- Consume the `%M` minute token: `[0-5]\d|\d`. -/
def takeMin : List Char → Option (ℕ × List Char)
  | c1 :: c2 :: r =>
      if isDigit05 c1 ∧ isDigitCh c2 then some (10 * digitVal c1 + digitVal c2, r)
      else if isDigitCh c1 then some (digitVal c1, c2 :: r)
      else none
  | [c1] => if isDigitCh c1 then some (digitVal c1, []) else none
  | [] => none

/-- Consume the `\s+` separating minutes from the meridiem indicator. -/
def eatWs : List Char → Option (List Char)
  | c :: r => if isPySpace c then some (r.dropWhile isPySpace) else none
  | [] => none

/-- `%I`/`%p` hour adjustment for "AM": 12 AM is hour 0. -/
def amHour (h : ℕ) : ℕ := if h = 12 then 0 else h

/-- `%I`/`%p` hour adjustment for "PM": 12 PM is hour 12. -/
def pmHour (h : ℕ) : ℕ := if h = 12 then 12 else h + 12

/-- Parse an already stripped and upper-cased character list against
`"%I:%M %p"`, returning minutes since midnight.  The whole input must be
consumed (`strptime` raises `ValueError` on unconverted trailing data). -/
def parseClock (cs : List Char) : Option ℕ :=
  match takeHour cs with
  | none => none
  | some (h, rest) =>
    match rest with
    | ':' :: rest2 =>
      match takeMin rest2 with
      | none => none
      | some (m, rest3) =>
        match eatWs rest3 with
        | none => none
        | some rest4 =>
          match rest4 with
          | ['A', 'M'] => some (amHour h * 60 + m)
          | ['P', 'M'] => some (pmHour h * 60 + m)
          | _ => none
    | _ => none

/-- `datetime.strptime(s.strip().upper(), "%I:%M %p")`, as minutes since
midnight (`none` = `ValueError`). -/
def parseTime (s : String) : Option ℕ :=
  parseClock ((stripList s.data).map Char.toUpper)

/-! ## Duration, hours and price (lines 147-158) -/

/-- The duration in seconds computed by the handler:
`delta = end_dt - start_dt; if delta.total_seconds() < 0: delta += Timedelta(days=1)`.
Inputs are the two parsed times in minutes since midnight. -/
def durationSecs (startMin endMin : ℕ) : ℤ :=
  let d : ℤ := ((endMin : ℤ) - (startMin : ℤ)) * 60
  if d < 0 then d + 86400 else d

/-- Round-half-to-even to the nearest integer. -/
def roundHalfEven (q : ℚ) : ℤ :=
  let f : ℤ := ⌊q⌋
  let r : ℚ := q - f
  if r < 1/2 then f
  else if r > 1/2 then f + 1
  else if f % 2 = 0 then f else f + 1

/-- Python's `round(x, 2)`, modelled over exact rationals: round-half-to-even
at two decimal digits. -/
def pythonRound2 (q : ℚ) : ℚ := (roundHalfEven (q * 100) : ℚ) / 100

/-- The rate table `PRICES` (lines 15-19): rupees per hour, keyed by table. -/
def PRICES : List (String × ℚ) :=
  [("English Snooker Table 1", 240),
   ("English Snooker Table 2", 240),
   ("French Snooker Table", 180)]

/-- `PRICES[table]`: `none` models the `KeyError` path (the selectbox only
offers keys of `PRICES`, so in the running app the lookup always succeeds). -/
def lookupRate (table : String) : Option ℚ := List.lookup table PRICES

/-! ## The booking computation (lines 138-158) -/

/-- The inputs of one booking submission. -/
structure BookingInput where
  name : String
  table : String
  start_time : String
  end_time : String
deriving DecidableEq

/-- The user-visible failures of the Save Booking handler. -/
inductive BookingError where
  /-- "Customer Name cannot be empty." (line 139) -/
  | emptyName
  /-- "Invalid time format. ..." — the `except ValueError` arm (line 188-189). -/
  | invalidTimeFormat
  /-- "End time must be after start time." (line 153) -/
  | nonPositiveDuration
  /-- "An unexpected error occurred: ..." — the generic `except Exception`
  arm (line 190-191), e.g. a `KeyError` on a table missing from `PRICES`. -/
  | unexpected
deriving DecidableEq

/-- The successful outcome shown to the user (line 185): price and hours. -/
structure Receipt where
  price : ℚ
  hours : ℚ
deriving DecidableEq

/-- The validation-and-pricing part of the Save Booking handler
(lines 138-158), before any file access. -/
def computeReceipt (inp : BookingInput) : Except BookingError Receipt :=
  if pyStrip inp.name = "" then .error .emptyName
  else
    match parseTime inp.start_time, parseTime inp.end_time with
    | some ts, some te =>
      if durationSecs ts te ≤ 0 then .error .nonPositiveDuration
      else
        match lookupRate inp.table with
        | none => .error .unexpected
        | some rate =>
          .ok ⟨pythonRound2 ((durationSecs ts te : ℚ) / 3600 * rate),
               (durationSecs ts te : ℚ) / 3600⟩
    | _, _ => .error .invalidTimeFormat

/-! ## Rendering the price into the CSV (`df.to_csv`)

`price` is a Python float whose value is an exact multiple of 1/100 (it comes
out of `round(_, 2)`); pandas writes the float's shortest `repr`, e.g. `60.0`,
`4.5`, `4.01`. -/

/-- The price in integer hundredths.  Exact whenever `q.den ∣ 100`, which
holds for every value produced by `pythonRound2`. -/
def centsOf (q : ℚ) : ℤ := q.num * (100 / (q.den : ℤ))

/-- The decimal string pandas writes for a (nonnegative) two-decimal float:
the integer part, a dot, and one fractional digit when the hundredths digit
is zero (`60.0`, `4.5`) or two fractional digits otherwise (`4.01`, `3.99`). -/
def showMoney (q : ℚ) : String :=
  let c := centsOf q
  let ip := c / 100
  let f := (c % 100).toNat
  toString ip ++ "." ++
    (if f % 10 = 0 then toString (f / 10)
     else if f < 10 then "0" ++ toString f
     else toString f)

/-! ## CSV serialization and parsing (`df.to_csv` / `pd.read_csv`)

The ledger file is comma-separated text with a header row; fields containing
a delimiter, quote or line break are written double-quoted with embedded
quotes doubled (pandas' `QUOTE_MINIMAL`).  `runCsv` is a single-pass
character-level parser for that format; `none` models the exception
`pd.read_csv` raises on unparsable input. -/

/-- Does the field need quoting under `QUOTE_MINIMAL`? -/
def needsQuote (f : List Char) : Bool :=
  f.any (fun c => c = ',' || c = '"' || c = '\n' || c = '\r')

/-- Double every quote character of a field body. -/
def escapeChars : List Char → List Char
  | [] => []
  | c :: r => if c = '"' then '"' :: '"' :: escapeChars r else c :: escapeChars r

/-- Serialize one field, quoting it exactly when required. -/
def escField (f : List Char) : List Char :=
  if needsQuote f then '"' :: (escapeChars f ++ ['"']) else f

/-- Serialize one row: fields joined by commas. -/
def renderRowChars : List (List Char) → List Char
  | [] => []
  | [f] => escField f
  | f :: fs => escField f ++ ',' :: renderRowChars fs

/-- Serialize a sequence of rows, one per line, each line newline-terminated
(as `to_csv` does). -/
def renderRowsChars : List (List (List Char)) → List Char
  | [] => []
  | r :: rs => renderRowChars r ++ '\n' :: renderRowsChars rs

/-- Parser mode: inside an unquoted field (also at a field boundary), inside
a quoted field, or just after a quote character inside a quoted field. -/
inductive CsvMode where
  | bare
  | quoted
  | afterQuote
deriving DecidableEq

/-- One-pass CSV scanner.  `curF` is the current field (reversed), `curRow`
the fields of the current row (reversed), `rows` the completed rows
(reversed).  Returns `none` on an unterminated quoted field or on stray
characters after a closing quote. -/
def runCsv : List Char → CsvMode → List Char → List (List Char) →
    List (List (List Char)) → Option (List (List (List Char)))
  | [], .bare, curF, curRow, rows =>
      if curF = [] ∧ curRow = [] then some rows.reverse
      else some (rows.reverse ++ [(curF.reverse :: curRow).reverse])
  | [], .quoted, _, _, _ => none
  | [], .afterQuote, curF, curRow, rows =>
      some (rows.reverse ++ [(curF.reverse :: curRow).reverse])
  | c :: r, .bare, curF, curRow, rows =>
      if c = '"' ∧ curF = [] then runCsv r .quoted [] curRow rows
      else if c = ',' then runCsv r .bare [] (curF.reverse :: curRow) rows
      else if c = '\n' then runCsv r .bare [] [] ((curF.reverse :: curRow).reverse :: rows)
      else runCsv r .bare (c :: curF) curRow rows
  | c :: r, .quoted, curF, curRow, rows =>
      if c = '"' then runCsv r .afterQuote curF curRow rows
      else runCsv r .quoted (c :: curF) curRow rows
  | c :: r, .afterQuote, curF, curRow, rows =>
      if c = '"' then runCsv r .quoted ('"' :: curF) curRow rows
      else if c = ',' then runCsv r .bare [] (curF.reverse :: curRow) rows
      else if c = '\n' then runCsv r .bare [] [] ((curF.reverse :: curRow).reverse :: rows)
      else none

/-- Parse a whole CSV text into its rows of fields. -/
def parseRows (cs : List Char) : Option (List (List (List Char))) :=
  runCsv cs .bare [] [] []

/-! ## The ledger -/

/-- One data row of the ledger, i.e. one `BookingRecord`
(columns `Name, Table, Time, Price, Date`).  Every cell is carried as text:
the column-wise dtype inference `pd.read_csv` performs is modelled
explicitly where the program observes it — by `normalizeTable` in the
handler's read-modify-write, and by `priceVal` (`to_numeric` with coercion)
in the stats view. -/
structure BookingRow where
  name : String
  table : String
  time : String
  price : String
  date : String
deriving DecidableEq

/-- The fixed header row (line 167/169). -/
def headerFields : List (List Char) :=
  ["Name".data, "Table".data, "Time".data, "Price".data, "Date".data]

/-- The five cells of a data row. -/
def rowFields (r : BookingRow) : List (List Char) :=
  [r.name.data, r.table.data, r.time.data, r.price.data, r.date.data]

/-- Read back one parsed CSV row as a `BookingRow`. -/
def rowToBookingRow : List (List Char) → Option BookingRow
  | [n, t, tm, p, d] =>
      some ⟨String.mk n, String.mk t, String.mk tm, String.mk p, String.mk d⟩
  | _ => none

/-- `pd.read_csv` at the app's schema, cells as text: the input must scan as
CSV, be nonempty (an empty file raises `EmptyDataError`), carry the expected
header, and have five cells in every data row (a row with *more* cells than
the header raises a tokenizer `ParserError`).  Scope note: real `read_csv`
accepts arbitrary header names and pads short rows with NaN; this model is
restricted to the app's own five-column schema, and the theorems below apply
it only to app-written files or to inputs on which `read_csv` genuinely
raises.  Column-wise dtype inference is modelled separately by
`normalizeTable`. -/
def parseLedgerRows (cs : List Char) : Option (List BookingRow) :=
  match parseRows cs with
  | some (h :: dataRows) =>
      if h = headerFields then dataRows.mapM rowToBookingRow else none
  | _ => none

/-- `df.to_csv(..., index=False)`: header row then one line per record. -/
def renderLedger (rows : List BookingRow) : List Char :=
  renderRowsChars (headerFields :: rows.map rowFields)

/-! ## Column-wise type inference of `pd.read_csv`

`pd.read_csv` does not hand the program the raw cell text: each column is
converted to int64 when every non-NA cell parses as an integer, else to
float64 when every non-NA cell parses as a number, and is kept as object
(string) otherwise; cells matching the default NA token list become NaN in
every dtype.  When the handler then rewrites the whole file with `to_csv`,
the inferred values — not the original text — are serialized: a Name cell
`007` comes back as `7`, a `None` as an empty cell, and an int column with
an NA cell is promoted to float (`7` becomes `7.0`).

Modelled fragment (disclosed): signed decimal integer and decimal-fraction
numerals and the default NA tokens.  Exponent/infinity numerals, bool
(`True`/`False`) and thousands-separator inference, int64 overflow and
whitespace-padded numerals are not modelled; no cell the app itself writes
uses any of those forms. -/

/-- The default `na_values` token list of `pd.read_csv`. -/
def naTokens : List String :=
  ["", "#N/A", "#N/A N/A", "#NA", "-1.#IND", "-1.#QNAN", "-NaN", "-nan",
   "1.#IND", "1.#QNAN", "<NA>", "N/A", "NA", "NULL", "NaN", "None",
   "n/a", "nan", "null"]

/-- Is the cell one of the default NA tokens? -/
def isNaCell (s : String) : Bool := naTokens.contains s

/-- A cell that parses as a (signed) decimal integer, e.g. `007` or `-12`. -/
def parseIntCell (cs : List Char) : Option ℤ :=
  let (neg, ds) : Bool × List Char :=
    match cs with
    | '-' :: r => (true, r)
    | '+' :: r => (false, r)
    | _ => (false, cs)
  if ds ≠ [] ∧ ds.all isDigitCh then
    some (if neg then -(digitsVal ds : ℤ) else (digitsVal ds : ℤ))
  else none

/-- A cell that parses as a decimal float: optional sign, digits with an
optional fractional part (at least one digit overall).  Returned as the
sign flag and the raw integer- and fraction-digit strings. -/
def parseFloatCell (cs : List Char) : Option (Bool × List Char × List Char) :=
  let (neg, ds) : Bool × List Char :=
    match cs with
    | '-' :: r => (true, r)
    | '+' :: r => (false, r)
    | _ => (false, cs)
  let ip := ds.takeWhile isDigitCh
  let rest := ds.dropWhile isDigitCh
  match rest with
  | [] => if ip ≠ [] then some (neg, ip, []) else none
  | '.' :: r =>
      if r.all isDigitCh ∧ (ip ≠ [] ∨ r ≠ []) then some (neg, ip, r) else none
  | _ => none

/-- The text `repr` writes for a float64 given by decimal digits: leading
zeros of the integer part and trailing zeros of the fraction dropped, both
parts padded to at least one digit (`007`/`50` → `7.5`, `60`/`0` → `60.0`). -/
def floatRepr (neg : Bool) (ip fp : List Char) : String :=
  let ip1 := ip.dropWhile (fun c => c = '0')
  let ip2 := if ip1 = [] then ['0'] else ip1
  let fp1 := (fp.reverse.dropWhile (fun c => c = '0')).reverse
  let fp2 := if fp1 = [] then ['0'] else fp1
  String.mk ((if neg then ['-'] else []) ++ ip2 ++ '.' :: fp2)

/-- One column through `read_csv` inference and back through `to_csv`:
an all-integer column is re-serialized from int64 (promoted to float64 when
it also has NA cells), an all-numeric column from float64, and any other
column keeps its cell text; NA cells always come back empty. -/
def normalizeColumn (cells : List String) : List String :=
  if cells.all fun s => isNaCell s || (parseIntCell s.data).isSome then
    if cells.any isNaCell then
      cells.map fun s =>
        if isNaCell s then "" else
          match parseIntCell s.data with
          | some k => toString k ++ ".0"
          | none => s
    else
      cells.map fun s =>
        match parseIntCell s.data with
        | some k => toString k
        | none => s
  else if cells.all fun s => isNaCell s || (parseFloatCell s.data).isSome then
    cells.map fun s =>
      if isNaCell s then "" else
        match parseFloatCell s.data with
        | some (neg, ip, fp) => floatRepr neg ip fp
        | none => s
  else
    cells.map fun s => if isNaCell s then "" else s

/-- A whole ledger table through `read_csv` inference and re-serialization:
each of the five columns is normalized independently and the rows rebuilt. -/
def normalizeTable (rows : List BookingRow) : List BookingRow :=
  List.zipWith (fun n (t, tm, p, d) => ⟨n, t, tm, p, d⟩)
    (normalizeColumn (rows.map BookingRow.name))
    (List.zip (normalizeColumn (rows.map BookingRow.table))
      (List.zip (normalizeColumn (rows.map BookingRow.time))
        (List.zip (normalizeColumn (rows.map BookingRow.price))
          (normalizeColumn (rows.map BookingRow.date)))))

/-! ## The Save Booking handler's file phase (lines 161-182) -/

/-- Loading the existing ledger (lines 161-169): no file gives an empty
frame; an unreadable file gives an empty frame plus the `st.warning`
"Existing CSV file could not be read. Starting a new log."; a readable file
yields its rows as `read_csv` infers them (`normalizeTable`), which is what
`to_csv` will re-serialize. -/
def loadLedger : Option (List Char) → List BookingRow × Bool
  | none => ([], false)
  | some s =>
    match parseLedgerRows s with
    | some rows => (normalizeTable rows, false)
    | none => ([], true)

/-- The `new_row` dict (lines 171-177): trimmed name, chosen table, the
literal `f"{start_time} - {end_time}"` built from the *raw* inputs, the
rendered price, and today's date string. -/
def newBookingRow (inp : BookingInput) (price : ℚ) (today : String) : BookingRow :=
  { name := pyStrip inp.name
    table := inp.table
    time := inp.start_time ++ " - " ++ inp.end_time
    price := showMoney price
    date := today }

deriving instance DecidableEq for Except

/-- The full observable outcome of one Save Booking click. -/
structure BookingOutcome where
  /-- The receipt shown on success, or the reported error. -/
  result : Except BookingError Receipt
  /-- The persisted CSV file after the click. -/
  fsAfter : Option (List Char)
  /-- Whether the "could not be read" warning was shown. -/
  warned : Bool
deriving DecidableEq

/-- The Save Booking button handler (lines 135-191): validate and price,
then — only on success — load the ledger, append `new_row` and rewrite the
whole file. -/
def saveBooking (fs : Option (List Char)) (inp : BookingInput) (today : String) :
    BookingOutcome :=
  match computeReceipt inp with
  | .error e => ⟨.error e, fs, false⟩
  | .ok r =>
    let (rows, warned) := loadLedger fs
    let rows' := rows ++ [newBookingRow inp r.price today]
    ⟨.ok r, some (renderLedger rows'), warned⟩

/-- Iterate Save Booking clicks, threading the persisted file; each call
carries its own current date. -/
def runBookings (fs : Option (List Char)) (calls : List (BookingInput × String)) :
    Option (List Char) :=
  calls.foldl (fun s c => (saveBooking s c.1 c.2).fsAfter) fs

/-! ## The live price estimate (lines 194-209)

Same parse / midnight-wrap / hours / price formulas as the handler, but with
no check that the duration is positive; any exception (bad time format,
unknown table) lands in the bare `except` and suppresses the estimate. -/

/-- The dynamic estimate: `some (price, hours)` or `none` when no estimate
is shown. -/
def estimatePrice (table start_s end_s : String) : Option (ℚ × ℚ) :=
  match parseTime start_s, parseTime end_s with
  | some ts, some te =>
    match lookupRate table with
    | some rate =>
        some (pythonRound2 ((durationSecs ts te : ℚ) / 3600 * rate),
          (durationSecs ts te : ℚ) / 3600)
    | none => none
  | _, _ => none

/-! ## Quick Stats (lines 223-251) -/

/-- A decimal numeral as read by `pd.to_numeric`: optional surrounding
whitespace, optional sign, digits with an optional fractional part.
(The exponent and infinity forms accepted by pandas are not modelled; no
cell written by the app uses them.) -/
def parseDecimal (s : String) : Option ℚ :=
  let cs := stripList s.data
  let (sign, cs1) : ℚ × List Char :=
    match cs with
    | '-' :: r => (-1, r)
    | '+' :: r => (1, r)
    | _ => (1, cs)
  let intDigits := cs1.takeWhile isDigitCh
  let rest1 := cs1.dropWhile isDigitCh
  let (fracDigits, rest2) : List Char × List Char :=
    match rest1 with
    | '.' :: r => (r.takeWhile isDigitCh, r.dropWhile isDigitCh)
    | _ => ([], rest1)
  if rest2 = [] ∧ (intDigits ≠ [] ∨ fracDigits ≠ []) then
    some (sign * ((intDigits ++ fracDigits).foldl (fun a c => 10 * a + digitVal c) 0 : ℕ) /
      (10 : ℚ) ^ fracDigits.length)
  else none

/-- `pd.to_numeric(_, errors='coerce').fillna(0)` on one `Price` cell. -/
def priceVal (s : String) : ℚ := (parseDecimal s).getD 0

/-- The three Quick Stats metrics. -/
structure Stats where
  total_bookings : ℕ
  total_revenue : ℚ
  today_revenue : ℚ
deriving DecidableEq

/-- The Quick Stats block (lines 226-235): read the ledger, coerce the
`Price` column (unparsable cells become 0), then count rows, sum all prices,
and sum the prices of rows whose `Date` equals today.  `none` models the
`st.error` fallback when the file cannot be read. -/
def quickStats (s : List Char) (today : String) : Option Stats :=
  match parseLedgerRows s with
  | none => none
  | some rows =>
      some ⟨rows.length,
            (rows.map fun r => priceVal r.price).sum,
            ((rows.filter fun r => r.date = today).map fun r => priceVal r.price).sum⟩

/-! ## Bounds on the parsed clock time -/

theorem isDigit19_val {c : Char} (h : isDigit19 c = true) :
    1 ≤ digitVal c ∧ digitVal c ≤ 9 := by
  simp only [isDigit19, Bool.and_eq_true, decide_eq_true_eq] at h
  simp only [digitVal]
  omega

theorem isDigitCh_val {c : Char} (h : isDigitCh c = true) :
    digitVal c ≤ 9 := by
  simp only [isDigitCh, Bool.and_eq_true, decide_eq_true_eq] at h
  simp only [digitVal]
  omega

theorem isDigit05_val {c : Char} (h : isDigit05 c = true) :
    digitVal c ≤ 5 := by
  simp only [isDigit05, Bool.and_eq_true, decide_eq_true_eq] at h
  simp only [digitVal]
  omega

theorem takeHour_bound {cs r : List Char} {h : ℕ}
    (hh : takeHour cs = some (h, r)) : 1 ≤ h ∧ h ≤ 12 := by
  match cs with
  | [] => simp [takeHour] at hh
  | [c1] =>
    simp only [takeHour] at hh
    split at hh
    · obtain ⟨rfl, -⟩ : h = digitVal c1 ∧ r = [] := by
        simpa using hh.symm
      have := isDigit19_val (by assumption)
      omega
    · simp at hh
  | c1 :: c2 :: tl =>
    simp only [takeHour] at hh
    split at hh
    · rename_i hc
      obtain ⟨rfl, -⟩ : h = 10 + digitVal c2 ∧ r = tl := by simpa using hh.symm
      rcases hc.2 with rfl | rfl | rfl <;> simp [digitVal]
    · split at hh
      · rename_i hc
        obtain ⟨rfl, -⟩ : h = digitVal c2 ∧ r = tl := by simpa using hh.symm
        have := isDigit19_val hc.2
        omega
      · split at hh
        · rename_i hc
          obtain ⟨rfl, -⟩ : h = digitVal c1 ∧ r = c2 :: tl := by simpa using hh.symm
          have := isDigit19_val hc
          omega
        · simp at hh

theorem takeMin_bound {cs r : List Char} {m : ℕ}
    (hh : takeMin cs = some (m, r)) : m ≤ 59 := by
  match cs with
  | [] => simp [takeMin] at hh
  | [c1] =>
    simp only [takeMin] at hh
    split at hh
    · obtain ⟨rfl, -⟩ : m = digitVal c1 ∧ r = [] := by simpa using hh.symm
      have := isDigitCh_val (by assumption)
      omega
    · simp at hh
  | c1 :: c2 :: tl =>
    simp only [takeMin] at hh
    split at hh
    · rename_i hc
      obtain ⟨rfl, -⟩ : m = 10 * digitVal c1 + digitVal c2 ∧ r = tl := by simpa using hh.symm
      have h1 := isDigit05_val hc.1
      have h2 := isDigitCh_val hc.2
      omega
    · split at hh
      · rename_i hc
        obtain ⟨rfl, -⟩ : m = digitVal c1 ∧ r = c2 :: tl := by simpa using hh.symm
        have := isDigitCh_val hc
        omega
      · simp at hh

theorem parseClock_lt {cs : List Char} {t : ℕ}
    (h : parseClock cs = some t) : t < 1440 := by
  unfold parseClock at h
  split at h
  · exact absurd h (by simp)
  · split at h
    · split at h
      · exact absurd h (by simp)
      · split at h
        · exact absurd h (by simp)
        · split at h
          · rename_i x2 hr rest rest2 hH x1 m rest3 hM x0 rest4 hW
            have hb := takeHour_bound hH
            have hm := takeMin_bound hM
            obtain rfl : amHour hr * 60 + m = t := by simpa using h
            simp only [amHour]
            split <;> omega
          · rename_i x2 hr rest rest2 hH x1 m rest3 hM x0 rest4 hW
            have hb := takeHour_bound hH
            have hm := takeMin_bound hM
            obtain rfl : pmHour hr * 60 + m = t := by simpa using h
            simp only [pmHour]
            split <;> omega
          · exact absurd h (by simp)
    · exact absurd h (by simp)

theorem parseTime_lt {s : String} {t : ℕ}
    (h : parseTime s = some t) : t < 1440 :=
  parseClock_lt h

/-! ## CSV round trip: `parseRows` inverts `renderRowsChars` -/

theorem runCsv_bare_quote_start (r : List Char) (curRow : List (List Char))
    (rows : List (List (List Char))) :
    runCsv ('"' :: r) .bare [] curRow rows = runCsv r .quoted [] curRow rows := by
  simp [runCsv]

theorem runCsv_bare_comma (r acc : List Char) (curRow : List (List Char))
    (rows : List (List (List Char))) :
    runCsv (',' :: r) .bare acc curRow rows =
      runCsv r .bare [] (acc.reverse :: curRow) rows := by
  simp [runCsv]

theorem runCsv_bare_nl (r acc : List Char) (curRow : List (List Char))
    (rows : List (List (List Char))) :
    runCsv ('\n' :: r) .bare acc curRow rows =
      runCsv r .bare [] [] ((acc.reverse :: curRow).reverse :: rows) := by
  simp [runCsv]

theorem runCsv_bare_char {c : Char} (h1 : c ≠ ',') (h2 : c ≠ '"') (h3 : c ≠ '\n')
    (r acc : List Char) (curRow : List (List Char)) (rows : List (List (List Char))) :
    runCsv (c :: r) .bare acc curRow rows = runCsv r .bare (c :: acc) curRow rows := by
  simp [runCsv, h1, h2, h3]

theorem runCsv_quoted_quote (r acc : List Char) (curRow : List (List Char))
    (rows : List (List (List Char))) :
    runCsv ('"' :: r) .quoted acc curRow rows = runCsv r .afterQuote acc curRow rows := by
  simp [runCsv]

theorem runCsv_quoted_char {c : Char} (hc : c ≠ '"') (r acc : List Char)
    (curRow : List (List Char)) (rows : List (List (List Char))) :
    runCsv (c :: r) .quoted acc curRow rows = runCsv r .quoted (c :: acc) curRow rows := by
  simp [runCsv, hc]

theorem runCsv_afterQuote_quote (r acc : List Char) (curRow : List (List Char))
    (rows : List (List (List Char))) :
    runCsv ('"' :: r) .afterQuote acc curRow rows =
      runCsv r .quoted ('"' :: acc) curRow rows := by
  simp [runCsv]

theorem runCsv_afterQuote_comma (r acc : List Char) (curRow : List (List Char))
    (rows : List (List (List Char))) :
    runCsv (',' :: r) .afterQuote acc curRow rows =
      runCsv r .bare [] (acc.reverse :: curRow) rows := by
  simp [runCsv]

theorem runCsv_afterQuote_nl (r acc : List Char) (curRow : List (List Char))
    (rows : List (List (List Char))) :
    runCsv ('\n' :: r) .afterQuote acc curRow rows =
      runCsv r .bare [] [] ((acc.reverse :: curRow).reverse :: rows) := by
  simp [runCsv]

theorem runCsv_quoted_escape (f : List Char) (rest acc : List Char)
    (curRow : List (List Char)) (rows : List (List (List Char))) :
    runCsv (escapeChars f ++ '"' :: rest) .quoted acc curRow rows =
      runCsv rest .afterQuote (f.reverse ++ acc) curRow rows := by
  induction f generalizing acc with
  | nil =>
    rw [show escapeChars [] = [] from rfl, List.nil_append, runCsv_quoted_quote]
    simp
  | cons c f ih =>
    by_cases hc : c = '"'
    · subst hc
      rw [show escapeChars ('"' :: f) = '"' :: '"' :: escapeChars f from by
            simp [escapeChars],
        List.cons_append, List.cons_append, runCsv_quoted_quote,
        runCsv_afterQuote_quote, ih]
      simp [List.append_assoc]
    · rw [show escapeChars (c :: f) = c :: escapeChars f from by simp [escapeChars, hc],
        List.cons_append, runCsv_quoted_char hc, ih]
      simp [List.append_assoc]

theorem runCsv_bare_scan (f : List Char) (rest acc : List Char)
    (curRow : List (List Char)) (rows : List (List (List Char)))
    (hf : ∀ c ∈ f, ¬(c = ',' ∨ c = '"' ∨ c = '\n')) :
    runCsv (f ++ rest) .bare acc curRow rows =
      runCsv rest .bare (f.reverse ++ acc) curRow rows := by
  induction f generalizing acc with
  | nil => simp
  | cons c f ih =>
    have hc := hf c (by simp)
    push_neg at hc
    obtain ⟨h1, h2, h3⟩ := hc
    rw [List.cons_append, runCsv_bare_char h1 h2 h3,
      ih _ (fun c hc => hf c (by simp [hc]))]
    simp [List.append_assoc]

theorem needsQuote_false {f : List Char} (hq : needsQuote f = false) :
    ∀ c ∈ f, ¬(c = ',' ∨ c = '"' ∨ c = '\n') := by
  intro c hc
  simp only [needsQuote, List.any_eq_false, Bool.or_eq_true, decide_eq_true_eq] at hq
  have := hq c hc
  tauto

theorem runCsv_field (f : List Char) (sep : Char) (rest : List Char)
    (curRow : List (List Char)) (rows : List (List (List Char)))
    (hsep : sep = ',' ∨ sep = '\n') :
    runCsv (escField f ++ sep :: rest) .bare [] curRow rows =
      if sep = ',' then runCsv rest .bare [] (f :: curRow) rows
      else runCsv rest .bare [] [] ((f :: curRow).reverse :: rows) := by
  by_cases hq : needsQuote f
  · rw [show escField f = '"' :: (escapeChars f ++ ['"']) from by simp [escField, hq],
      List.cons_append]
    have hassoc : (escapeChars f ++ ['"']) ++ sep :: rest =
        escapeChars f ++ '"' :: (sep :: rest) := by simp
    rw [hassoc, runCsv_bare_quote_start, runCsv_quoted_escape]
    rcases hsep with rfl | rfl
    · rw [if_pos rfl, runCsv_afterQuote_comma]
      simp
    · rw [if_neg (by decide), runCsv_afterQuote_nl]
      simp
  · rw [show escField f = f from by simp [escField, hq],
      runCsv_bare_scan f (sep :: rest) [] curRow rows
        (needsQuote_false (by simpa using hq))]
    rcases hsep with rfl | rfl
    · rw [if_pos rfl, runCsv_bare_comma]
      simp
    · rw [if_neg (by decide), runCsv_bare_nl]
      simp

theorem runCsv_row (fields : List (List Char)) (hne : fields ≠ [])
    (rest : List Char) (curRow : List (List Char)) (rows : List (List (List Char))) :
    runCsv (renderRowChars fields ++ '\n' :: rest) .bare [] curRow rows =
      runCsv rest .bare [] [] ((curRow.reverse ++ fields) :: rows) := by
  induction fields generalizing curRow with
  | nil => exact absurd rfl hne
  | cons f fs ih =>
    cases fs with
    | nil =>
      rw [show renderRowChars [f] = escField f from rfl,
        runCsv_field f '\n' rest curRow rows (Or.inr rfl)]
      rw [if_neg (by decide)]
      simp
    | cons f2 fs2 =>
      rw [show renderRowChars (f :: f2 :: fs2) = escField f ++ ',' :: renderRowChars (f2 :: fs2)
          from rfl]
      have hassoc : (escField f ++ ',' :: renderRowChars (f2 :: fs2)) ++ '\n' :: rest =
          escField f ++ ',' :: (renderRowChars (f2 :: fs2) ++ '\n' :: rest) := by simp
      rw [hassoc, runCsv_field f ',' _ curRow rows (Or.inl rfl), if_pos rfl,
        ih (by simp)]
      simp

theorem runCsv_rows (rs : List (List (List Char)))
    (h : ∀ r ∈ rs, r ≠ []) (rows : List (List (List Char))) :
    runCsv (renderRowsChars rs) .bare [] [] rows = some (rows.reverse ++ rs) := by
  induction rs generalizing rows with
  | nil => simp [renderRowsChars, runCsv]
  | cons r rs ih =>
    rw [show renderRowsChars (r :: rs) = renderRowChars r ++ '\n' :: renderRowsChars rs
        from rfl,
      runCsv_row r (h r (by simp)) _ [] rows]
    simp only [List.reverse_nil, List.nil_append]
    rw [ih (fun r hr => h r (by simp [hr]))]
    simp

theorem parseRows_render (rs : List (List (List Char))) (h : ∀ r ∈ rs, r ≠ []) :
    parseRows (renderRowsChars rs) = some rs := by
  unfold parseRows
  rw [runCsv_rows rs h []]
  simp

theorem rowToBookingRow_rowFields (r : BookingRow) :
    rowToBookingRow (rowFields r) = some r := rfl

theorem mapM_loop_rowFields (rows acc : List BookingRow) :
    List.mapM.loop rowToBookingRow (rows.map rowFields) acc =
      some (acc.reverse ++ rows) := by
  induction rows generalizing acc with
  | nil => simp [List.mapM.loop]
  | cons r rows ih =>
    simp [List.mapM.loop, rowToBookingRow_rowFields, ih]

theorem mapM_rowFields (rows : List BookingRow) :
    (rows.map rowFields).mapM rowToBookingRow = some rows := by
  rw [show (rows.map rowFields).mapM rowToBookingRow =
      List.mapM.loop rowToBookingRow (rows.map rowFields) [] from rfl,
    mapM_loop_rowFields]
  simp

/-- Reloading a ledger file written by the app yields exactly the records
that were written, field for field and in order. -/
theorem parseLedgerRows_render (rows : List BookingRow) :
    parseLedgerRows (renderLedger rows) = some rows := by
  unfold parseLedgerRows renderLedger
  rw [parseRows_render (headerFields :: rows.map rowFields) ?hne]
  · simp [mapM_rowFields, mapM_loop_rowFields]
  · intro r hr
    rcases List.mem_cons.mp hr with rfl | hr
    · simp [headerFields]
    · obtain ⟨b, -, rfl⟩ := List.mem_map.mp hr
      simp [rowFields]

/-! ## Duration facts -/

theorem durationSecs_nonpos_iff {a b : ℕ} (ha : a < 1440) (hb : b < 1440) :
    durationSecs a b ≤ 0 ↔ a = b := by
  simp only [durationSecs]
  split <;> omega

/-! ## Inverting the booking computation -/

theorem computeReceipt_eq_of_parse {inp : BookingInput} {ts te : ℕ}
    (hn : ¬ pyStrip inp.name = "")
    (hs : parseTime inp.start_time = some ts)
    (he : parseTime inp.end_time = some te) :
    computeReceipt inp =
      if durationSecs ts te ≤ 0 then .error .nonPositiveDuration
      else
        match lookupRate inp.table with
        | none => .error .unexpected
        | some rate =>
          .ok ⟨pythonRound2 ((durationSecs ts te : ℚ) / 3600 * rate),
               (durationSecs ts te : ℚ) / 3600⟩ := by
  unfold computeReceipt
  rw [if_neg hn, hs, he]

theorem computeReceipt_ok {inp : BookingInput} {r : Receipt}
    (h : computeReceipt inp = .ok r) :
    ∃ ts te rate, parseTime inp.start_time = some ts ∧
      parseTime inp.end_time = some te ∧
      lookupRate inp.table = some rate ∧
      ¬ durationSecs ts te ≤ 0 ∧
      r = ⟨pythonRound2 ((durationSecs ts te : ℚ) / 3600 * rate),
           (durationSecs ts te : ℚ) / 3600⟩ := by
  unfold computeReceipt at h
  split at h
  · exact absurd h (by simp)
  · split at h
    · rename_i x1 x2 ts te hs he
      by_cases hd : durationSecs ts te ≤ 0
      · rw [if_pos hd] at h
        exact absurd h (by simp)
      · rw [if_neg hd] at h
        cases hrate : lookupRate inp.table with
        | none =>
          rw [hrate] at h
          exact absurd h (by simp)
        | some rate =>
          rw [hrate] at h
          refine ⟨ts, te, rate, hs, he, rfl, hd, ?_⟩
          simpa using h.symm
    · exact absurd h (by simp)

theorem computeReceipt_invalid_of_fail {inp : BookingInput}
    (hn : ¬ pyStrip inp.name = "")
    (hfail : parseTime inp.start_time = none ∨ parseTime inp.end_time = none) :
    computeReceipt inp = .error .invalidTimeFormat := by
  unfold computeReceipt
  rw [if_neg hn]
  rcases hfail with hf | hf
  · rw [hf]
  · rw [hf]
    cases parseTime inp.start_time <;> rfl

theorem computeReceipt_invalidTime_iff {inp : BookingInput}
    (hn : ¬ pyStrip inp.name = "") :
    computeReceipt inp = .error .invalidTimeFormat ↔
      (parseTime inp.start_time = none ∨ parseTime inp.end_time = none) := by
  cases hs : parseTime inp.start_time with
  | none => simp [computeReceipt_invalid_of_fail hn (Or.inl hs)]
  | some ts =>
    cases he : parseTime inp.end_time with
    | none => simp [computeReceipt_invalid_of_fail hn (Or.inr he)]
    | some te =>
      rw [computeReceipt_eq_of_parse hn hs he]
      apply iff_of_false
      · intro h
        split at h
        · simp at h
        · split at h <;> simp_all
      · simp

theorem computeReceipt_nonpos_iff {inp : BookingInput} {ts te : ℕ}
    (hn : ¬ pyStrip inp.name = "")
    (hs : parseTime inp.start_time = some ts)
    (he : parseTime inp.end_time = some te) :
    computeReceipt inp = .error .nonPositiveDuration ↔ ts = te := by
  have hts := parseTime_lt hs
  have hte := parseTime_lt he
  rw [computeReceipt_eq_of_parse hn hs he]
  by_cases hd : durationSecs ts te ≤ 0
  · rw [if_pos hd]
    simp [(durationSecs_nonpos_iff hts hte).mp hd]
  · rw [if_neg hd]
    rw [durationSecs_nonpos_iff hts hte] at hd
    apply iff_of_false
    · cases hl : lookupRate inp.table <;> simp [hl]
    · exact hd

/-! ## The handler as a state transformer -/

theorem saveBooking_err {fs : Option (List Char)} {inp : BookingInput}
    {today : String} {e : BookingError} (h : computeReceipt inp = .error e) :
    saveBooking fs inp today = ⟨.error e, fs, false⟩ := by
  unfold saveBooking
  rw [h]

theorem saveBooking_ok {fs : Option (List Char)} {inp : BookingInput}
    {today : String} {r : Receipt} (h : computeReceipt inp = .ok r) :
    saveBooking fs inp today =
      ⟨.ok r,
       some (renderLedger ((loadLedger fs).1 ++ [newBookingRow inp r.price today])),
       (loadLedger fs).2⟩ := by
  unfold saveBooking
  rw [h]

theorem loadLedger_none : loadLedger none = ([], false) := rfl

theorem loadLedger_render (rows : List BookingRow) :
    loadLedger (some (renderLedger rows)) = (normalizeTable rows, false) := by
  simp [loadLedger, parseLedgerRows_render]

theorem loadLedger_bad {s : List Char} (h : parseLedgerRows s = none) :
    loadLedger (some s) = ([], true) := by
  simp [loadLedger, h]

theorem normalizeColumn_length (cells : List String) :
    (normalizeColumn cells).length = cells.length := by
  unfold normalizeColumn
  split_ifs <;> simp

theorem normalizeTable_length (rows : List BookingRow) :
    (normalizeTable rows).length = rows.length := by
  unfold normalizeTable
  simp [List.length_zipWith, List.length_zip, normalizeColumn_length]

/-- The price of a submission as the handler would compute it (0 when the
submission would be rejected; used only to phrase expected ledger rows). -/
def receiptPrice (inp : BookingInput) : ℚ :=
  match computeReceipt inp with
  | .ok r => r.price
  | .error _ => 0

/-- The ledger row a successful call `(inp, today)` appends. -/
def expectedRow (inp : BookingInput) (today : String) : BookingRow :=
  newBookingRow inp (receiptPrice inp) today

/-- Folding successful calls from a ledger each of whose intermediate
states is a fixpoint of the `read_csv` inference (`normalizeTable`) appends
exactly the expected rows. -/
theorem runBookings_stable (calls : List (BookingInput × String)) (acc : List BookingRow)
    (hok : ∀ c ∈ calls, (computeReceipt c.1).isOk = true)
    (hstab : ∀ n, normalizeTable (acc ++ (calls.take n).map fun c => expectedRow c.1 c.2) =
        acc ++ (calls.take n).map fun c => expectedRow c.1 c.2) :
    runBookings (some (renderLedger acc)) calls =
      some (renderLedger (acc ++ calls.map fun c => expectedRow c.1 c.2)) := by
  induction calls generalizing acc with
  | nil => simp [runBookings]
  | cons c cs ih =>
    obtain ⟨r, hr⟩ : ∃ r, computeReceipt c.1 = .ok r := by
      have := hok c (by simp)
      cases h : computeReceipt c.1 <;> simp_all [Except.isOk, Except.toBool]
    have hacc : normalizeTable acc = acc := by simpa using hstab 0
    have hstep : (saveBooking (some (renderLedger acc)) c.1 c.2).fsAfter =
        some (renderLedger (acc ++ [expectedRow c.1 c.2])) := by
      rw [saveBooking_ok hr, loadLedger_render]
      simp [hacc, expectedRow, receiptPrice, hr]
    have ih' := ih (acc ++ [expectedRow c.1 c.2]) (fun c hc => hok c (by simp [hc]))
      (by intro n
          have h := hstab (n + 1)
          simpa [List.take_succ_cons, List.append_assoc] using h)
    rw [show runBookings (some (renderLedger acc)) (c :: cs) =
        runBookings ((saveBooking (some (renderLedger acc)) c.1 c.2).fsAfter) cs from rfl,
      hstep, ih']
    simp

/-- Regardless of any cell rewriting by the inference, each successful call
adds exactly one row: the row count after a fold is the initial count plus
the number of calls. -/
theorem runBookings_length (calls : List (BookingInput × String)) (acc : List BookingRow)
    (hok : ∀ c ∈ calls, (computeReceipt c.1).isOk = true) :
    ∃ rows, runBookings (some (renderLedger acc)) calls = some (renderLedger rows)
      ∧ rows.length = acc.length + calls.length := by
  induction calls generalizing acc with
  | nil => exact ⟨acc, by simp [runBookings], by simp⟩
  | cons c cs ih =>
    obtain ⟨r, hr⟩ : ∃ r, computeReceipt c.1 = .ok r := by
      have := hok c (by simp)
      cases h : computeReceipt c.1 <;> simp_all [Except.isOk, Except.toBool]
    have hstep : (saveBooking (some (renderLedger acc)) c.1 c.2).fsAfter =
        some (renderLedger (normalizeTable acc ++ [newBookingRow c.1 r.price c.2])) := by
      rw [saveBooking_ok hr, loadLedger_render]
    obtain ⟨rows, h1, h2⟩ := ih (normalizeTable acc ++ [newBookingRow c.1 r.price c.2])
      (fun c hc => hok c (by simp [hc]))
    refine ⟨rows, ?_, ?_⟩
    · rw [show runBookings (some (renderLedger acc)) (c :: cs) =
          runBookings ((saveBooking (some (renderLedger acc)) c.1 c.2).fsAfter) cs from rfl,
        hstep, h1]
    · rw [h2]
      simp [normalizeTable_length]
      omega

theorem saveBooking_result_error_iff (fs : Option (List Char)) (inp : BookingInput)
    (today : String) (e : BookingError) :
    (saveBooking fs inp today).result = .error e ↔ computeReceipt inp = .error e := by
  cases hcr : computeReceipt inp with
  | error e2 => simp [saveBooking_err hcr, hcr]
  | ok r => simp [saveBooking_ok hcr, hcr]

theorem saveBooking_result_ok_iff (fs : Option (List Char)) (inp : BookingInput)
    (today : String) (r : Receipt) :
    (saveBooking fs inp today).result = .ok r ↔ computeReceipt inp = .ok r := by
  cases hcr : computeReceipt inp with
  | error e2 => simp [saveBooking_err hcr, hcr]
  | ok r2 => simp [saveBooking_ok hcr, hcr]

/-! ## Sums over coerced price cells -/

theorem sum_priceVal_filterMap (l : List BookingRow) :
    (l.map fun r => priceVal r.price).sum =
      (l.filterMap fun r => parseDecimal r.price).sum := by
  induction l with
  | nil => simp
  | cons r l ih =>
    have ih' : (l.map fun r => (parseDecimal r.price).getD 0).sum =
        (l.filterMap fun r => parseDecimal r.price).sum := by
      simpa [priceVal] using ih
    cases h : parseDecimal r.price <;>
      simp [priceVal, h, ih', List.filterMap_cons]

theorem map_getD_of_map_some {α : Type} {f : α → Option ℚ} {l : List α} {vs : List ℚ}
    (h : l.map f = vs.map some) :
    l.map (fun a => (f a).getD 0) = vs := by
  induction l generalizing vs with
  | nil => cases vs <;> simp_all
  | cons a l ih =>
    cases vs with
    | nil => simp at h
    | cons v vs =>
      obtain ⟨h1, h2⟩ : f a = some v ∧ l.map f = vs.map some := by simpa using h
      simp [h1, ih h2]

theorem filter_sum_of_map_some {rows : List BookingRow} {vs : List ℚ} (today : String)
    (h : rows.map (fun r => parseDecimal r.price) = vs.map some) :
    ((rows.filter fun r => r.date = today).map fun r => priceVal r.price).sum =
      (((rows.zip vs).filter fun p => p.1.date = today).map Prod.snd).sum := by
  induction rows generalizing vs with
  | nil => cases vs <;> simp_all
  | cons r rows ih =>
    cases vs with
    | nil => simp at h
    | cons v vs =>
      obtain ⟨h1, h2⟩ : parseDecimal r.price = some v ∧
          rows.map (fun r => parseDecimal r.price) = vs.map some := by simpa using h
      have ih' : ((rows.filter fun r => r.date = today).map
            fun r => (parseDecimal r.price).getD 0).sum =
          (((rows.zip vs).filter fun p => p.1.date = today).map Prod.snd).sum := by
        simpa [priceVal] using ih h2
      by_cases hd : r.date = today
      · simp [List.filter_cons, hd, priceVal, h1, ih']
      · simp [List.filter_cons, hd, ih h2]

/-! ## Concrete evaluations used by witnesses -/

/-- A 20-minute booking on the French table: rate 180, hours 1/3, price 60. -/
theorem computeReceipt_french_20min :
    computeReceipt ⟨"Alice", "French Snooker Table", "02:00 PM", "02:20 PM"⟩ =
      .ok ⟨60, 1/3⟩ := by
  rw [computeReceipt_eq_of_parse (by decide)
      (show parseTime "02:00 PM" = some 840 by decide)
      (show parseTime "02:20 PM" = some 860 by decide),
    if_neg (by decide : ¬ durationSecs 840 860 ≤ 0),
    show lookupRate "French Snooker Table" = some 180 from by decide]
  dsimp only
  rw [show durationSecs 840 860 = 1200 from by decide]
  norm_num [pythonRound2, roundHalfEven]

/-- A 1-minute booking on an English table: rate 240, hours 1/60, price
exactly 4 (240 × 1/60 = 4; no rounding is involved). -/
theorem computeReceipt_english_1min :
    computeReceipt ⟨"Alice", "English Snooker Table 1", "02:00 PM", "02:01 PM"⟩ =
      .ok ⟨4, 1/60⟩ := by
  rw [computeReceipt_eq_of_parse (by decide)
      (show parseTime "02:00 PM" = some 840 by decide)
      (show parseTime "02:01 PM" = some 841 by decide),
    if_neg (by decide : ¬ durationSecs 840 841 ≤ 0),
    show lookupRate "English Snooker Table 1" = some 240 from by decide]
  dsimp only
  rw [show durationSecs 840 841 = 60 from by decide]
  norm_num [pythonRound2, roundHalfEven]

/-- A valid sample submission used by several witnesses: 20 minutes on the
French table. -/
def inpAliceFrench : BookingInput :=
  ⟨"Alice", "French Snooker Table", "02:00 PM", "02:20 PM"⟩

/-- A ledger file that `pd.read_csv` rejects: a data row with six cells
under a five-column header (tokenizer error). -/
def junkLedger : List Char :=
  "Name,Table,Time,Price,Date\n1,2,3,4,5,6\n".data

/-- The same valid submission with the all-digit customer name `007`. -/
def inp007 : BookingInput :=
  ⟨"007", "French Snooker Table", "02:00 PM", "02:20 PM"⟩

/-- The same valid submission under the name `Bob`. -/
def inpBob : BookingInput :=
  ⟨"Bob", "French Snooker Table", "02:00 PM", "02:20 PM"⟩

theorem showMoney_60 : showMoney 60 = "60.0" := by
  unfold showMoney
  rw [show centsOf 60 = 6000 from by unfold centsOf; norm_num]
  decide

theorem computeReceipt_007 : computeReceipt inp007 = .ok ⟨60, 1/3⟩ := by
  rw [computeReceipt_eq_of_parse (by decide)
      (show parseTime inp007.start_time = some 840 by decide)
      (show parseTime inp007.end_time = some 860 by decide),
    if_neg (by decide : ¬ durationSecs 840 860 ≤ 0),
    show lookupRate inp007.table = some 180 from by decide]
  dsimp only
  rw [show durationSecs 840 860 = 1200 from by decide]
  norm_num [pythonRound2, roundHalfEven]

theorem computeReceipt_bob : computeReceipt inpBob = .ok ⟨60, 1/3⟩ := by
  rw [computeReceipt_eq_of_parse (by decide)
      (show parseTime inpBob.start_time = some 840 by decide)
      (show parseTime inpBob.end_time = some 860 by decide),
    if_neg (by decide : ¬ durationSecs 840 860 ≤ 0),
    show lookupRate inpBob.table = some 180 from by decide]
  dsimp only
  rw [show durationSecs 840 860 = 1200 from by decide]
  norm_num [pythonRound2, roundHalfEven]

theorem expectedRow_alice :
    expectedRow inpAliceFrench "2026-10-12" =
      ⟨"Alice", "French Snooker Table", "02:00 PM - 02:20 PM", "60.0", "2026-10-12"⟩ := by
  unfold expectedRow receiptPrice newBookingRow
  rw [show computeReceipt inpAliceFrench = .ok ⟨60, 1/3⟩ from computeReceipt_french_20min]
  dsimp only
  rw [showMoney_60]
  decide

theorem newRow_007 :
    newBookingRow inp007 (60 : ℚ) "2026-10-12" =
      ⟨"007", "French Snooker Table", "02:00 PM - 02:20 PM", "60.0", "2026-10-12"⟩ := by
  unfold newBookingRow
  rw [showMoney_60]
  decide

theorem newRow_bob :
    newBookingRow inpBob (60 : ℚ) "2026-10-12" =
      ⟨"Bob", "French Snooker Table", "02:00 PM - 02:20 PM", "60.0", "2026-10-12"⟩ := by
  unfold newBookingRow
  rw [showMoney_60]
  decide

/-! # Claims -/

/-- C1: for inputs that parse as wall-clock times `ts`, `te` (minutes since
midnight) and a nonempty trimmed name, the handler computes the duration as
`(te - ts) * 60` seconds with exactly 24 hours (86400 s) added when that raw
difference is negative; it fails with `NonPositiveDuration` (returning no
receipt, hence no price) precisely when `ts = te`; on success the receipt
hours equal that duration divided by 3600; and the midnight-wrap example
start 11:30 PM, end 12:30 AM yields a duration of 3600 s = 1 hour. -/
theorem booking_duration_wrap_spec (fs : Option (List Char)) (inp : BookingInput)
    (today : String) (ts te : ℕ)
    (hs : parseTime inp.start_time = some ts)
    (he : parseTime inp.end_time = some te)
    (hn : ¬ pyStrip inp.name = "") :
    durationSecs ts te =
      (if ((te : ℤ) - ts) * 60 < 0 then ((te : ℤ) - ts) * 60 + 86400
       else ((te : ℤ) - ts) * 60)
    ∧ ((saveBooking fs inp today).result = .error .nonPositiveDuration ↔ ts = te)
    ∧ (∀ r, (saveBooking fs inp today).result = .ok r →
        r.hours = (durationSecs ts te : ℚ) / 3600)
    ∧ parseTime "11:30 PM" = some 1410 ∧ parseTime "12:30 AM" = some 30
    ∧ durationSecs 1410 30 = 3600 := by
  refine ⟨rfl, ?_, ?_, by decide, by decide, by decide⟩
  · rw [saveBooking_result_error_iff, computeReceipt_nonpos_iff hn hs he]
  · intro r hr
    rw [saveBooking_result_ok_iff] at hr
    obtain ⟨ts2, te2, rate, hs2, he2, -, -, rfl⟩ := computeReceipt_ok hr
    obtain rfl : ts = ts2 := by rw [hs] at hs2; exact (Option.some_inj.mp hs2)
    obtain rfl : te = te2 := by rw [he] at he2; exact (Option.some_inj.mp he2)
    rfl

theorem booking_duration_wrap_spec_witness :
    parseTime "11:30 PM" = some 1410 ∧ parseTime "12:30 AM" = some 30 ∧
    ¬ pyStrip "Alice" = "" ∧
    ((saveBooking none ⟨"Alice", "French Snooker Table", "11:30 PM", "12:30 AM"⟩
        "2026-10-12").result = .error .nonPositiveDuration ↔ (1410 : ℕ) = 30) :=
  ⟨by decide, by decide, by decide,
    (booking_duration_wrap_spec none
      ⟨"Alice", "French Snooker Table", "11:30 PM", "12:30 AM"⟩
      "2026-10-12" 1410 30 (by decide) (by decide) (by decide)).2.1⟩

/-- C2 counterexample: the claimed example "rate 240 with duration 0.0167 h
gives 4.00 after rounding from 4.008" is false: 240 × 0.0167 = 4.008, and
rounding 4.008 to two decimals gives 4.01 under round-half-to-even (and under
round-half-up — 4.008 is not a tie), not 4.00. -/
theorem round_of_4008_is_401_not_400 :
    pythonRound2 ((240 : ℚ) * (167/10000)) = 401/100 ∧
      ((401 : ℚ)/100) ≠ 4 := by
  constructor
  · unfold pythonRound2 roundHalfEven
    norm_num
  · norm_num

/-- C2 (amended): for every successful booking the returned receipt price is
`pythonRound2 (hours × rate)` — round-half-to-even at two decimals, applied
uniformly — and the persisted row carries exactly that price (rendered by
`showMoney`); rate 180 with duration 1/3 h gives 60.00; and the nearest
realizable version of the second example is rate 240 with duration 1/60 h
(one minute), which gives 4.00 exactly (240 × 1/60 = 4, no rounding). -/
theorem booking_price_formula (fs : Option (List Char)) (inp : BookingInput)
    (today : String) (r : Receipt)
    (h : (saveBooking fs inp today).result = .ok r) :
    (∃ rate, lookupRate inp.table = some rate ∧
      r.price = pythonRound2 (r.hours * rate))
    ∧ (∃ rows, (saveBooking fs inp today).fsAfter = some (renderLedger rows) ∧
        rows.getLast? = some (newBookingRow inp r.price today))
    ∧ computeReceipt ⟨"Alice", "French Snooker Table", "02:00 PM", "02:20 PM"⟩ =
        .ok ⟨60, 1/3⟩
    ∧ computeReceipt ⟨"Alice", "English Snooker Table 1", "02:00 PM", "02:01 PM"⟩ =
        .ok ⟨4, 1/60⟩ := by
  have hcr : computeReceipt inp = .ok r := (saveBooking_result_ok_iff _ _ _ _).mp h
  refine ⟨?_, ?_, computeReceipt_french_20min, computeReceipt_english_1min⟩
  · obtain ⟨ts, te, rate, -, -, hrate, -, rfl⟩ := computeReceipt_ok hcr
    exact ⟨rate, hrate, rfl⟩
  · rw [saveBooking_ok hcr]
    exact ⟨(loadLedger fs).1 ++ [newBookingRow inp r.price today], rfl,
      by rw [List.getLast?_concat]⟩

theorem booking_price_formula_witness :
    (saveBooking none inpAliceFrench "2026-10-12").result = .ok ⟨60, 1/3⟩ ∧
    (∃ rate, lookupRate inpAliceFrench.table = some rate ∧
      (60 : ℚ) = pythonRound2 ((1/3 : ℚ) * rate)) := by
  have h : (saveBooking none inpAliceFrench "2026-10-12").result = .ok ⟨60, 1/3⟩ := by
    rw [saveBooking_result_ok_iff]
    exact computeReceipt_french_20min
  exact ⟨h, (booking_price_formula none inpAliceFrench "2026-10-12" ⟨60, 1/3⟩ h).1⟩

/-- C4: a booking call that fails validation (empty trimmed name, unparsable
time, or non-positive duration) leaves the persisted ledger exactly as it
was: absent stays absent, and existing contents are untouched — the handler
reaches no file operation on those paths. -/
theorem validation_error_preserves_ledger (fs : Option (List Char))
    (inp : BookingInput) (today : String) (e : BookingError)
    (he : (saveBooking fs inp today).result = .error e)
    (hv : e = .emptyName ∨ e = .invalidTimeFormat ∨ e = .nonPositiveDuration) :
    (saveBooking fs inp today).fsAfter = fs := by
  cases hcr : computeReceipt inp with
  | error e2 => rw [saveBooking_err hcr]
  | ok r =>
    rw [saveBooking_ok hcr] at he
    simp at he

theorem validation_error_preserves_ledger_witness :
    (saveBooking none ⟨"  ", "French Snooker Table", "02:00 PM", "03:00 PM"⟩
        "2026-10-12").result = .error .emptyName
    ∧ (BookingError.emptyName = .emptyName ∨ BookingError.emptyName = .invalidTimeFormat
        ∨ BookingError.emptyName = .nonPositiveDuration)
    ∧ (saveBooking none ⟨"  ", "French Snooker Table", "02:00 PM", "03:00 PM"⟩
        "2026-10-12").fsAfter = none :=
  ⟨by decide, Or.inl rfl,
    validation_error_preserves_ledger none
      ⟨"  ", "French Snooker Table", "02:00 PM", "03:00 PM"⟩ "2026-10-12"
      .emptyName (by decide) (Or.inl rfl)⟩

/-- C5: when the ledger file exists but `pd.read_csv` rejects it, a valid
booking call still succeeds: the warning is shown (`warned = true`), the old
contents are discarded, and the persisted ledger afterwards holds exactly the
one new record. -/
theorem corrupt_ledger_warn_reset (s : List Char) (inp : BookingInput)
    (today : String) (r : Receipt)
    (hbad : parseLedgerRows s = none)
    (hok : computeReceipt inp = .ok r) :
    (saveBooking (some s) inp today).result = .ok r
    ∧ (saveBooking (some s) inp today).warned = true
    ∧ (saveBooking (some s) inp today).fsAfter =
        some (renderLedger [newBookingRow inp r.price today])
    ∧ parseLedgerRows (renderLedger [newBookingRow inp r.price today]) =
        some [newBookingRow inp r.price today] := by
  rw [saveBooking_ok hok, loadLedger_bad hbad]
  exact ⟨rfl, rfl, rfl, parseLedgerRows_render _⟩

theorem corrupt_ledger_warn_reset_witness :
    parseLedgerRows junkLedger = none
    ∧ computeReceipt inpAliceFrench = .ok ⟨60, 1/3⟩
    ∧ (saveBooking (some junkLedger) inpAliceFrench "2026-10-12").warned = true
    ∧ (saveBooking (some junkLedger) inpAliceFrench "2026-10-12").fsAfter =
        some (renderLedger [newBookingRow inpAliceFrench (60 : ℚ) "2026-10-12"]) := by
  have h := corrupt_ledger_warn_reset junkLedger inpAliceFrench "2026-10-12"
    ⟨60, 1/3⟩ (by decide) computeReceipt_french_20min
  exact ⟨by decide, computeReceipt_french_20min, h.2.1, h.2.2.1⟩

/-- C3 counterexample: the read-modify-write of a later booking does not
keep earlier rows verbatim.  Booking once under the (nonempty, trimmed)
customer name `007` writes a Name cell `007`; the next successful booking
re-reads the file through pandas column inference, which turns the all-digit
Name column into int64, and rewrites the cell as `7` — so the first row of
the final ledger does not have Name = the trimmed customer name `007`. -/
theorem numeric_name_rewritten_on_reload :
    pyStrip inp007.name = "007"
    ∧ runBookings none [(inp007, "2026-10-12"), (inpBob, "2026-10-12")] =
        some (renderLedger
          [⟨"7", "French Snooker Table", "02:00 PM - 02:20 PM", "60.0", "2026-10-12"⟩,
           ⟨"Bob", "French Snooker Table", "02:00 PM - 02:20 PM", "60.0", "2026-10-12"⟩])
    ∧ ("7" : String) ≠ "007" := by
  refine ⟨by decide, ?_, by decide⟩
  have h1 : (saveBooking none inp007 "2026-10-12").fsAfter =
      some (renderLedger
        [⟨"007", "French Snooker Table", "02:00 PM - 02:20 PM", "60.0", "2026-10-12"⟩]) := by
    rw [saveBooking_ok computeReceipt_007]
    dsimp only
    rw [loadLedger_none]
    dsimp only
    rw [List.nil_append, newRow_007]
  have h2 : (saveBooking (some (renderLedger
      [⟨"007", "French Snooker Table", "02:00 PM - 02:20 PM", "60.0", "2026-10-12"⟩]))
      inpBob "2026-10-12").fsAfter =
      some (renderLedger
        [⟨"7", "French Snooker Table", "02:00 PM - 02:20 PM", "60.0", "2026-10-12"⟩,
         ⟨"Bob", "French Snooker Table", "02:00 PM - 02:20 PM", "60.0", "2026-10-12"⟩]) := by
    rw [saveBooking_ok computeReceipt_bob]
    dsimp only
    rw [loadLedger_render]
    dsimp only
    rw [show normalizeTable
        [⟨"007", "French Snooker Table", "02:00 PM - 02:20 PM", "60.0", "2026-10-12"⟩] =
        [⟨"7", "French Snooker Table", "02:00 PM - 02:20 PM", "60.0", "2026-10-12"⟩]
      from by decide, newRow_bob]
    rfl
  rw [show runBookings none [(inp007, "2026-10-12"), (inpBob, "2026-10-12")] =
      (saveBooking (saveBooking none inp007 "2026-10-12").fsAfter inpBob
        "2026-10-12").fsAfter from rfl,
    h1, h2]

/-- C3 (amended): starting from an absent ledger file, an empty file, or a
header-only file, N successful booking calls leave a persisted CSV with the
header and exactly N data rows, one per call.  The row appended by call
`(inp, today)` is `expectedRow inp today` = ⟨trimmed name, chosen table,
`"start_input - end_input"` built from the raw inputs, rendered computed
price, today⟩; but each subsequent call re-reads the file through the pandas
column inference (`normalizeTable`) before rewriting it, so earlier rows are
only guaranteed verbatim when the written table is inference-stable (no cell
is re-serialized differently — e.g. no all-digit Name column, no NA token).
Unconditionally the final ledger has N rows (first conjunct); when every
prefix of the expected table is a fixpoint of `normalizeTable`, the final
ledger is exactly the expected rows in call order (second conjunct), it
reloads as those rows under the header (third), and their number is N
(fourth). -/
theorem ledger_append_normalized (calls : List (BookingInput × String))
    (fs₀ : Option (List Char))
    (h0 : fs₀ = none ∨ fs₀ = some [] ∨ fs₀ = some (renderLedger []))
    (hok : ∀ c ∈ calls, (computeReceipt c.1).isOk = true) :
    (∃ rows, runBookings fs₀ calls =
        (if calls = [] then fs₀ else some (renderLedger rows))
      ∧ rows.length = calls.length)
    ∧ ((∀ n, normalizeTable ((calls.take n).map fun c => expectedRow c.1 c.2) =
          (calls.take n).map fun c => expectedRow c.1 c.2) →
        runBookings fs₀ calls =
          (if calls = [] then fs₀
           else some (renderLedger (calls.map fun c => expectedRow c.1 c.2))))
    ∧ parseLedgerRows (renderLedger (calls.map fun c => expectedRow c.1 c.2)) =
        some (calls.map fun c => expectedRow c.1 c.2)
    ∧ (calls.map fun c => expectedRow c.1 c.2).length = calls.length := by
  refine ⟨?_, ?_, parseLedgerRows_render _, by simp⟩
  · cases calls with
    | nil => exact ⟨[], by simp [runBookings], rfl⟩
    | cons c cs =>
      obtain ⟨r, hr⟩ : ∃ r, computeReceipt c.1 = .ok r := by
        have := hok c (by simp)
        cases h : computeReceipt c.1 <;> simp_all [Except.isOk, Except.toBool]
      have hstep : (saveBooking fs₀ c.1 c.2).fsAfter =
          some (renderLedger [newBookingRow c.1 r.price c.2]) := by
        rcases h0 with rfl | rfl | rfl
        · rw [saveBooking_ok hr, loadLedger_none]
          rfl
        · rw [saveBooking_ok hr, loadLedger_bad (by decide)]
          rfl
        · rw [saveBooking_ok hr, loadLedger_render]
          simp [show normalizeTable ([] : List BookingRow) = [] from rfl]
      obtain ⟨rows, hrun, hlen⟩ := runBookings_length cs [newBookingRow c.1 r.price c.2]
        (fun c hc => hok c (by simp [hc]))
      refine ⟨rows, ?_, by rw [hlen]; simp [Nat.add_comm]⟩
      rw [if_neg (by simp : ¬ c :: cs = []),
        show runBookings fs₀ (c :: cs) =
          runBookings ((saveBooking fs₀ c.1 c.2).fsAfter) cs from rfl,
        hstep, hrun]
  · intro hstab
    cases calls with
    | nil => simp [runBookings]
    | cons c cs =>
      rw [if_neg (by simp : ¬ c :: cs = [])]
      obtain ⟨r, hr⟩ : ∃ r, computeReceipt c.1 = .ok r := by
        have := hok c (by simp)
        cases h : computeReceipt c.1 <;> simp_all [Except.isOk, Except.toBool]
      have hstep : (saveBooking fs₀ c.1 c.2).fsAfter =
          some (renderLedger [expectedRow c.1 c.2]) := by
        have hrow : newBookingRow c.1 r.price c.2 = expectedRow c.1 c.2 := by
          simp [expectedRow, receiptPrice, hr]
        rcases h0 with rfl | rfl | rfl
        · rw [saveBooking_ok hr, loadLedger_none]
          simp [hrow]
        · rw [saveBooking_ok hr, loadLedger_bad (by decide)]
          simp [hrow]
        · rw [saveBooking_ok hr, loadLedger_render]
          simp [show normalizeTable ([] : List BookingRow) = [] from rfl, hrow]
      rw [show runBookings fs₀ (c :: cs) =
          runBookings ((saveBooking fs₀ c.1 c.2).fsAfter) cs from rfl,
        hstep,
        runBookings_stable cs [expectedRow c.1 c.2] (fun c hc => hok c (by simp [hc]))
          (by intro n
              have h := hstab (n + 1)
              simpa [List.take_succ_cons] using h)]
      simp

theorem ledger_append_normalized_witness :
    (computeReceipt inpAliceFrench).isOk = true
    ∧ expectedRow inpAliceFrench "2026-10-12" =
        ⟨"Alice", "French Snooker Table", "02:00 PM - 02:20 PM", "60.0", "2026-10-12"⟩
    ∧ runBookings none [(inpAliceFrench, "2026-10-12")] =
        some (renderLedger [expectedRow inpAliceFrench "2026-10-12"]) := by
  have hok : (computeReceipt inpAliceFrench).isOk = true := by
    rw [show computeReceipt inpAliceFrench = .ok ⟨60, 1/3⟩ from
      computeReceipt_french_20min]
    rfl
  have hall : ∀ c ∈ [(inpAliceFrench, "2026-10-12")], (computeReceipt c.1).isOk = true := by
    intro c hc
    have hc2 : c = (inpAliceFrench, "2026-10-12") := by simpa using hc
    rw [hc2]
    exact hok
  have hstab : ∀ n, normalizeTable (([(inpAliceFrench, "2026-10-12")].take n).map
      fun c => expectedRow c.1 c.2) = ([(inpAliceFrench, "2026-10-12")].take n).map
      fun c => expectedRow c.1 c.2 := by
    intro n
    cases n with
    | zero => rfl
    | succ m =>
      simp only [List.take_succ_cons, List.take_nil, List.map_cons, List.map_nil]
      rw [expectedRow_alice]
      decide
  have h := (ledger_append_normalized [(inpAliceFrench, "2026-10-12")] none
      (Or.inl rfl) hall).2.1 hstab
  rw [if_neg (by decide)] at h
  exact ⟨hok, expectedRow_alice, by simpa using h⟩

/-- C6 counterexample: a call whose time input fails the grammar but whose
name is empty after trimming fails with `EmptyName`, not `InvalidTimeFormat`
(the name check runs first and stops the handler), so "fails with
InvalidTimeFormat exactly when either input does not match the grammar" is
false as stated. -/
theorem invalid_time_not_sole_trigger :
    parseTime "25:00 PM" = none
    ∧ (saveBooking none ⟨"", "French Snooker Table", "25:00 PM", "03:00 PM"⟩
        "2026-10-12").result = .error .emptyName
    ∧ (Except.error BookingError.emptyName : Except BookingError Receipt) ≠
        .error .invalidTimeFormat := by
  refine ⟨by decide, ?_, by decide⟩
  rw [saveBooking_result_error_iff]
  decide

/-- C6 (amended): provided the trimmed name is nonempty, the booking fails
with `InvalidTimeFormat` exactly when either raw time input — stripped of
surrounding whitespace and upper-cased — fails the `strptime` grammar
`hour 1-12, colon, minute 0-59, whitespace, AM/PM` (`parseTime`); in
particular "25:00 PM", "two thirty" and a time carrying seconds are
rejected, while lower-case meridiems and surrounding whitespace are
accepted. -/
theorem invalid_time_format_iff (fs : Option (List Char)) (inp : BookingInput)
    (today : String) (hn : ¬ pyStrip inp.name = "") :
    ((saveBooking fs inp today).result = .error .invalidTimeFormat ↔
      (parseTime inp.start_time = none ∨ parseTime inp.end_time = none))
    ∧ parseTime "25:00 PM" = none
    ∧ parseTime "two thirty" = none
    ∧ parseTime "02:00:30 PM" = none
    ∧ parseTime "  02:00 pm " = some 840 := by
  refine ⟨?_, by decide, by decide, by decide, by decide⟩
  rw [saveBooking_result_error_iff, computeReceipt_invalidTime_iff hn]

theorem invalid_time_format_iff_witness :
    ¬ pyStrip "Alice" = ""
    ∧ ((saveBooking none ⟨"Alice", "French Snooker Table", "25:00 PM", "03:00 PM"⟩
        "2026-10-12").result = .error .invalidTimeFormat ↔
        (parseTime "25:00 PM" = none ∨ parseTime "03:00 PM" = none)) :=
  ⟨by decide,
   (invalid_time_format_iff none
      ⟨"Alice", "French Snooker Table", "25:00 PM", "03:00 PM"⟩
      "2026-10-12" (by decide)).1⟩

/-- C7 counterexample: the live estimate block has no non-positive-duration
rejection: with start = end = 02:00 PM it displays an estimate of ₹0.00 for
0 hours, while a booking of the same inputs fails with
`NonPositiveDuration` — so the estimate does not use "the same formulas as
booking steps 3-5" in the claimed sense. -/
theorem estimate_missing_nonpositive_check :
    estimatePrice "French Snooker Table" "02:00 PM" "02:00 PM" = some (0, 0)
    ∧ (saveBooking none ⟨"Alice", "French Snooker Table", "02:00 PM", "02:00 PM"⟩
        "2026-10-12").result = .error .nonPositiveDuration := by
  constructor
  · unfold estimatePrice
    rw [show parseTime "02:00 PM" = some 840 from by decide,
      show lookupRate "French Snooker Table" = some 180 from by decide]
    dsimp only
    rw [show durationSecs 840 840 = 0 from by decide]
    norm_num [pythonRound2, roundHalfEven]
  · rw [saveBooking_result_error_iff]
    decide

/-- C7 (amended): the live estimate uses the same parse, midnight-wrap,
hours and price formulas as the handler but omits its non-positive-duration
rejection; consequently whenever a booking of some inputs succeeds with
receipt `r`, the estimate for the same table and time inputs is exactly
`(r.price, r.hours)`.  `estimatePrice` is a pure function of the three
inputs: it takes no ledger state at all. -/
theorem estimate_agrees_with_booking (fs : Option (List Char)) (inp : BookingInput)
    (today : String) (r : Receipt)
    (h : (saveBooking fs inp today).result = .ok r) :
    estimatePrice inp.table inp.start_time inp.end_time = some (r.price, r.hours) := by
  have hcr : computeReceipt inp = .ok r := (saveBooking_result_ok_iff _ _ _ _).mp h
  obtain ⟨ts, te, rate, hs, he, hrate, -, rfl⟩ := computeReceipt_ok hcr
  simp [estimatePrice, hs, he, hrate]

theorem estimate_agrees_with_booking_witness :
    (saveBooking none inpAliceFrench "2026-10-12").result = .ok ⟨60, 1/3⟩
    ∧ estimatePrice inpAliceFrench.table inpAliceFrench.start_time
        inpAliceFrench.end_time = some ((60 : ℚ), (1/3 : ℚ)) := by
  have h : (saveBooking none inpAliceFrench "2026-10-12").result = .ok ⟨60, 1/3⟩ := by
    rw [saveBooking_result_ok_iff]
    exact computeReceipt_french_20min
  exact ⟨h, estimate_agrees_with_booking none inpAliceFrench "2026-10-12" ⟨60, 1/3⟩ h⟩

theorem parseDecimal_eq_some_priceVal {s : String}
    (h : (parseDecimal s).isSome = true) :
    parseDecimal s = some (priceVal s) := by
  unfold priceVal
  cases hh : parseDecimal s with
  | none => rw [hh] at h; simp at h
  | some v => simp [hh]

/-- A two-row ledger used by the stats witnesses. -/
def statsRows : List BookingRow :=
  [⟨"A", "T", "02:00 PM - 03:00 PM", "60.0", "2026-10-12"⟩,
   ⟨"B", "T", "02:00 PM - 03:00 PM", "40.5", "2026-10-11"⟩]

/-- The numeric values of the `Price` cells of `statsRows`. -/
def statsVals : List ℚ := [priceVal "60.0", priceVal "40.5"]

/-- A two-row ledger whose second `Price` cell is not a number. -/
def mixedRows : List BookingRow :=
  [⟨"A", "T", "02:00 PM - 03:00 PM", "60.0", "2026-10-12"⟩,
   ⟨"B", "T", "02:00 PM - 03:00 PM", "abc", "2026-10-12"⟩]

/-- C8: for a readable ledger whose `Price` cells all parse as numbers, the
Quick Stats block reports total bookings = number of data rows, total
revenue = the sum of the price values, and today's revenue = the sum of the
price values of exactly the rows whose `Date` cell equals the current date
string. -/
theorem quick_stats_correct (s : List Char) (today : String)
    (rows : List BookingRow) (vs : List ℚ)
    (hparse : parseLedgerRows s = some rows)
    (hv : rows.map (fun r => parseDecimal r.price) = vs.map some) :
    quickStats s today = some
      ⟨rows.length, vs.sum,
        (((rows.zip vs).filter fun p => p.1.date = today).map Prod.snd).sum⟩ := by
  unfold quickStats
  rw [hparse]
  dsimp only
  have h1 : (rows.map fun r => priceVal r.price) = vs := by
    simpa [priceVal] using map_getD_of_map_some hv
  rw [h1, filter_sum_of_map_some today hv]

theorem quick_stats_correct_witness :
    parseLedgerRows (renderLedger statsRows) = some statsRows
    ∧ statsRows.map (fun r => parseDecimal r.price) = statsVals.map some
    ∧ quickStats (renderLedger statsRows) "2026-10-12" = some
        ⟨statsRows.length, statsVals.sum,
          (((statsRows.zip statsVals).filter fun p => p.1.date = "2026-10-12").map
            Prod.snd).sum⟩ := by
  have hv : statsRows.map (fun r => parseDecimal r.price) = statsVals.map some := by
    simp only [statsRows, statsVals, List.map_cons, List.map_nil]
    rw [parseDecimal_eq_some_priceVal (by decide),
      parseDecimal_eq_some_priceVal (by decide)]
  exact ⟨parseLedgerRows_render statsRows, hv,
    quick_stats_correct (renderLedger statsRows) "2026-10-12" statsRows statsVals
      (parseLedgerRows_render statsRows) hv⟩

/-- C9: exporting the in-memory ledger (the same `to_csv` serialization that
writes the file: header row `Name,Table,Time,Price,Date` followed by one
line per record, fields quoted exactly when they contain a delimiter, quote
or line break) and reloading the artifact yields the same sequence of
records, field for field and in the same order — for every ledger, with no
restriction on the field contents. -/
theorem export_reload_round_trip (rows : List BookingRow) :
    parseLedgerRows (renderLedger rows) = some rows
    ∧ renderLedger rows = renderRowsChars (headerFields :: rows.map rowFields) :=
  ⟨parseLedgerRows_render rows, rfl⟩

/-- C10: a `Price` cell that does not parse as a number does not make the
stats view fail: `pd.to_numeric(errors=coerce).fillna(0)` turns it into 0,
so its row still counts toward total bookings while total revenue and
today's revenue equal the sums over the parseable cells only. -/
theorem unparsable_price_coerced_to_zero (s : List Char) (today : String)
    (rows : List BookingRow)
    (hparse : parseLedgerRows s = some rows) :
    quickStats s today = some
      ⟨rows.length,
        (rows.filterMap fun r => parseDecimal r.price).sum,
        ((rows.filter fun r => r.date = today).filterMap
          fun r => parseDecimal r.price).sum⟩ := by
  unfold quickStats
  rw [hparse]
  dsimp only
  rw [sum_priceVal_filterMap, sum_priceVal_filterMap]

theorem unparsable_price_coerced_to_zero_witness :
    parseLedgerRows (renderLedger mixedRows) = some mixedRows
    ∧ parseDecimal "abc" = none
    ∧ quickStats (renderLedger mixedRows) "2026-10-12" = some
        ⟨mixedRows.length,
          (mixedRows.filterMap fun r => parseDecimal r.price).sum,
          ((mixedRows.filter fun r => r.date = "2026-10-12").filterMap
            fun r => parseDecimal r.price).sum⟩ :=
  ⟨parseLedgerRows_render mixedRows, by decide,
    unparsable_price_coerced_to_zero (renderLedger mixedRows) "2026-10-12"
      mixedRows (parseLedgerRows_render mixedRows)⟩

end Snooker
